import Mathlib

/-!
Verification development for the FMU-explore session layer of
`BPL_STEM_AIR_Perfusion_explore.py`.

The embedding models the pure session-control logic of the script:
the parameter store (`parDict` with `par` / `init` updates), the
state-name translation used for run continuation, and the simulation
session controller `simu` as a state-transition function that also
records the trace of calls made to the external FMU engine and the
error lines printed.  The external engine itself (pyfmi) is modelled
as an oracle (`Engine`).

Python dictionaries are modelled as insertion-ordered association
lists with unique keys; `dict.update` replaces the value of an
existing key in place and appends genuinely new keys at the end.
Python floats/None/strings stored in `parDict` are modelled by the
inductive type `Val`; the membership test
`parDict[key] in [np.nan, None, '']` compares against the `np.nan`
object, `None` and the empty string, which is `missingVal` below.
-/

/-- A value stored in `parDict` / `stateDict`: a number, the `np.nan`
object, `None`, or a string. -/
inductive Val where
  | real : ℚ → Val
  | nanVal : Val
  | noneVal : Val
  | str : String → Val
deriving DecidableEq, Repr

/-- The test `parDict[key] in [np.nan, None, '']` (source line 380). -/
def missingVal : Val → Bool
  | Val.nanVal => true
  | Val.noneVal => true
  | Val.str s => s == ""
  | Val.real _ => false

/-- Python `d[k]` lookup on an association list (first match). -/
def lookupD (k : String) : List (String × Val) → Option Val
  | [] => none
  | kv :: rest => if kv.1 = k then some kv.2 else lookupD k rest

/-- Python `k in d.keys()`. -/
def hasKey (k : String) (d : List (String × Val)) : Bool :=
  (lookupD k d).isSome

/-- Replace the value of the first entry with key `k`, keeping its position
(the behaviour of `dict.update` on an existing key). -/
def replaceVal (k : String) (v : Val) : List (String × Val) → List (String × Val)
  | [] => []
  | kv :: rest => if kv.1 = k then (k, v) :: rest else kv :: replaceVal k v rest

/-- Python `dict.update` with a single key: replace in place if the key exists,
append at the end otherwise. -/
def updateOne (d : List (String × Val)) (k : String) (v : Val) : List (String × Val) :=
  if hasKey k d then replaceVal k v d else d ++ [(k, v)]

/-- Python `d.update(u)` for a whole mapping `u`, processed in iteration order. -/
def updateMany (d : List (String × Val)) (u : List (String × Val)) : List (String × Val) :=
  u.foldl (fun acc kv => updateOne acc kv.1 kv.2) d

/-- Prefix test for character lists, written out to keep the
development self-contained. -/
def leadsWith : List Char → List Char → Bool
  | [], _ => true
  | _ :: _, [] => false
  | p :: ps, c :: cs => p == c && leadsWith ps cs

/-- Python `pat in s` substring containment on character lists. -/
def hasSub (pat : List Char) : List Char → Bool
  | [] => leadsWith pat []
  | c :: rest => leadsWith pat (c :: rest) || hasSub pat rest

/-- Result of a `par()` call: the updated store, the names reported as
"seems not an accessible parameter" (in order, one line per name), and
the number of `parCheck` requirements that evaluate false on the updated
store (each is printed; none are rolled back).  In this repository
`parCheck = []`. -/
structure ParOut where
  dict : List (String × Val)
  rejected : List String
  failedChecks : Nat
deriving Repr

/-- The function `par(**updates)` (source lines 277-291): stage the updates whose key is
already in `parDict`, report every other key, apply the staged updates with
one `parDict.update(x_temp)`, then evaluate every `parCheck` requirement on
the updated store.  The textual `eval`-ed requirements are modelled as
predicates on the store. -/
def par (parDict : List (String × Val)) (parCheck : List (List (String × Val) → Bool))
    (updates : List (String × Val)) : ParOut :=
  let x_temp := updates.filter (fun kv => hasKey kv.1 parDict)
  let errs := (updates.filter (fun kv => !hasKey kv.1 parDict)).map (fun kv => kv.1)
  let newDict := updateMany parDict x_temp
  { dict := newDict
    rejected := errs
    failedChecks := (parCheck.filter (fun req => !req newDict)).length }

/-- Result of an `init()` call: the updated store and the names reported as
"seems not an initial value, use par() instead". -/
structure InitOut where
  dict : List (String × Val)
  rejected : List String
deriving Repr

/-- The function `init(**updates)` (source lines 294-304): accept exactly the keys that
contain the substring `_start` (membership in `parDict` is NOT checked),
report every other key, then `parDict.update(x_init)` — which creates new
store keys for accepted names that were not declared. -/
def init (parDict : List (String × Val)) (updates : List (String × Val)) : InitOut :=
  let x_init := updates.filter (fun kv => hasSub "_start".data kv.1.data)
  let errs := (updates.filter (fun kv => !hasSub "_start".data kv.1.data)).map (fun kv => kv.1)
  { dict := updateMany parDict x_init, rejected := errs }

/-- Python `key[-i]` (1-based from the end).  Out-of-range access raises
`IndexError` in Python; it is modelled as `none`, which never compares equal
to a character.  The only names for which this distinction matters are names
shorter than the inspected offset (e.g. the empty string), which do not occur
as FMU state names. -/
def getFromEnd (l : List Char) (i : Nat) : Option Char :=
  if 1 ≤ i ∧ i ≤ l.length then l[l.length - i]? else none

/-- The state-name → initialization-parameter-name translation performed by
the continuation loop of `simu` (source lines 408-424), on character lists:

* `key[-1] != ']'`: names not ending in a bracket; among these, a name whose
  last three characters are `I.y` (resp. `D.x`) is translated to
  `key[:-10] + 'I_start'` (resp. `key[:-10] + 'D_start'`), and any other
  name to `key + '_start'`;
* otherwise the opening bracket is looked for at `key[-3]`, `key[-4]`,
  `key[-5]` (1-, 2- and 3-character index) and `_start` is inserted before
  it: `key[:-w] + '_start' + key[-w:]`;
* if none of those positions holds `[`, the loop prints
  "The state vecotr has more than 1000 states" (sic) and breaks: `none`.

Python slices `key[-3:]`, `key[:-10]`, `key[:-w]`, `key[-w:]` agree with
`List.drop (n-3)`, `List.take (n-10)`, `List.take (n-w)`, `List.drop (n-w)`
for every length, clamping included. -/
def transKey (key : List Char) : Option (List Char) :=
  if getFromEnd key 1 ≠ some ']' then
    if key.drop (key.length - 3) = ['I', '.', 'y'] then
      some (key.take (key.length - 10) ++ "I_start".data)
    else if key.drop (key.length - 3) = ['D', '.', 'x'] then
      some (key.take (key.length - 10) ++ "D_start".data)
    else
      some (key ++ "_start".data)
  else if getFromEnd key 3 = some '[' then
    some (key.take (key.length - 3) ++ "_start".data ++ key.drop (key.length - 3))
  else if getFromEnd key 4 = some '[' then
    some (key.take (key.length - 4) ++ "_start".data ++ key.drop (key.length - 4))
  else if getFromEnd key 5 = some '[' then
    some (key.take (key.length - 5) ++ "_start".data ++ key.drop (key.length - 5))
  else
    none

/-- String-level wrapper of `transKey`. -/
def stateToStart (key : String) : Option String :=
  (transKey key.data).map (fun l => ⟨l⟩)

/-- The external engine (pyfmi FMU model) as an oracle: whether
`model.simulate` succeeds, the value of `model.time` it reports at the end
of a successful run, and the value `model.get(name)[0]` reads for each
state variable afterwards. -/
structure Engine where
  simulateOk : Bool
  finalTime : ℚ
  readState : String → Val

/-- The mutable session globals of the script: the loaded-model flag
(`model is None`), `parDict`, `parLocation` (total map from logical names
to engine locations; in this file it is the identity on the nine declared
names), `stateDict`, `prevFinalTime` and `simulationTime`. -/
structure Session where
  modelLoaded : Bool
  parDict : List (String × Val)
  parLocation : String → String
  stateDict : List (String × Val)
  prevFinalTime : ℚ
  simulationTime : ℚ

/-- One call made to the external engine.  `model.simulate` in `Initial`
mode passes only `final_time` (`simulateFinal`), leaving the start time to
the engine default; in `Continued` mode both bounds are passed
(`simulateFromTo`). -/
inductive EngineCall where
  | load : EngineCall
  | reset : EngineCall
  | set : String → Val → EngineCall
  | simulateFinal : ℚ → EngineCall
  | simulateFromTo : ℚ → ℚ → EngineCall
deriving DecidableEq, Repr

/-- Whether a call is an invocation of `model.simulate`. -/
def isSimulateCall : EngineCall → Bool
  | EngineCall.simulateFinal _ => true
  | EngineCall.simulateFromTo _ _ => true
  | _ => false

/-- Whether a call is a `model.set`. -/
def isSetCall : EngineCall → Bool
  | EngineCall.set _ _ => true
  | _ => false

/-- The time interval a simulate call covers: pyfmi defaults the start time
to 0 when only `final_time` is passed. -/
def simInterval : EngineCall → Option (ℚ × ℚ)
  | EngineCall.simulateFinal f => some (0, f)
  | EngineCall.simulateFromTo a b => some (a, b)
  | _ => none

/-- The loop `for key in parDict.keys(): model.set(parLocation[key], parDict[key])`. -/
def pushPars (parLocation : String → String) (parDict : List (String × Val)) :
    List EngineCall :=
  parDict.map (fun kv => EngineCall.set (parLocation kv.1) kv.2)

/-- The continuation loop over `stateDict` (source lines 408-424): one
`model.set` per state on the translated name, stopping at the first state
name `transKey` cannot translate, where the loop prints its warning (with
the source misspelling) and `break`s — later states are not pushed.
Returns the set-calls made and the lines printed. -/
def pushStates : List (String × Val) → List EngineCall × List String
  | [] => ([], [])
  | (key, v) :: rest =>
    match transKey key.data with
    | some loc =>
        (EngineCall.set (String.mk loc) v :: (pushStates rest).1, (pushStates rest).2)
    | none => ([], ["The state vecotr has more than 1000 states"])

/-- The "Value missing" lines printed by the `parDict` check at the top of
`simu` (source lines 378-382), one per offending key. -/
def missingReports (d : List (String × Val)) : List String :=
  (d.filter fun kv => missingVal kv.2).map (fun kv => "Value missing: " ++ kv.1)

/-- Outcome of a `simu` call: the session globals afterwards, the engine
calls made in order, the error/warning lines printed, `simulationDone`,
and whether an engine exception propagated out of the call. -/
structure SimuOut where
  sess : Session
  calls : List EngineCall
  reports : List String
  done : Bool
  raised : Bool

/-- The tail of a successful run (source lines 434-447): re-read every
`stateDict` entry from the engine in place and advance `prevFinalTime` to
`model.time`.  (The diagram replay is plotting-only and out of scope.) -/
def finishRun (eng : Engine) (s : Session) (calls : List EngineCall)
    (reports : List String) : SimuOut :=
  { sess := { s with
        stateDict := s.stateDict.map (fun kv => (kv.1, eng.readState kv.1)),
        prevFinalTime := eng.finalTime }
    calls := calls
    reports := reports
    done := true
    raised := false }

/-- Make the `model.simulate` call: on success the run finishes normally;
on an engine exception the exception propagates out of `simu`, so the
session is left as it was before the simulate call and no further line is
printed. -/
def runEngine (eng : Engine) (s : Session) (calls : List EngineCall)
    (reports : List String) : SimuOut :=
  if eng.simulateOk then finishRun eng s calls reports
  else { sess := s, calls := calls, reports := reports, done := false, raised := true }

/-- The recognized `Initial` spellings (source line 391). -/
def initialModes : List String := ["Initial", "initial", "init"]

/-- The recognized `Continued` spellings (source line 398). -/
def contModes : List String := ["Continued", "continued", "cont"]

/-- The mode dispatch of `simu` after the model has been loaded and reset
(source lines 391-450).  `pre` is the trace of the load/reset calls already
made.  The error text on the continuation check ends, in the source, with a
stray quote character that is dropped here. -/
def simuRun (eng : Engine) (s : Session) (pre : List EngineCall) (mode : String) :
    SimuOut :=
  if mode ∈ initialModes then
    runEngine eng s
      (pre ++ pushPars s.parLocation s.parDict ++ [EngineCall.simulateFinal s.simulationTime])
      []
  else if mode ∈ contModes then
    if s.prevFinalTime = 0 then
      { sess := s
        calls := pre
        reports := ["Error: Simulation is first done with default mode = init",
                    "Error: No simulation done"]
        done := false
        raised := false }
    else
      runEngine eng s
        (pre ++ pushPars s.parLocation s.parDict ++ (pushStates s.stateDict).1
          ++ [EngineCall.simulateFromTo s.prevFinalTime (s.prevFinalTime + s.simulationTime)])
        (pushStates s.stateDict).2
  else
    { sess := s
      calls := pre
      reports := ["Simulation mode not correct", "Error: No simulation done"]
      done := false
      raised := false }

/-- The function `simu(simulationTimeLocal, mode)` (source lines 363-450).  In order:
the global `simulationTime` is overwritten with the argument; `parDict` is
checked for missing values and the call returns before any engine call if
one is found; the model is loaded if it is not (`model is None`) and reset;
then the mode dispatch runs. -/
def simu (eng : Engine) (s0 : Session) (simulationTimeLocal : ℚ) (mode : String) :
    SimuOut :=
  let s : Session := { s0 with simulationTime := simulationTimeLocal }
  if missingReports s.parDict = [] then
    simuRun eng { s with modelLoaded := true }
      (if s.modelLoaded then [EngineCall.reset] else [EngineCall.load, EngineCall.reset])
      mode
  else
    { sess := s, calls := [], reports := missingReports s.parDict,
      done := false, raised := false }

/-- Engine oracle whose simulate call succeeds. -/
def engOK : Engine :=
  { simulateOk := true, finalTime := 100, readState := fun _ => Val.real 5 }

/-- Session with no completed run yet (`prevFinalTime = 0`). -/
def sessA : Session :=
  { modelLoaded := true
    parDict := [("Vcc", Val.real 1), ("N_start", Val.real 50)]
    parLocation := id
    stateDict := [("N", Val.real 2), ("DO", Val.real 3)]
    prevFinalTime := 0
    simulationTime := 1000 }

/-- Session after a completed run (`prevFinalTime = 100`) whose second
state name has a four-digit array index, which the translation loop cannot
handle. -/
def sessBad : Session :=
  { modelLoaded := true
    parDict := [("Vcc", Val.real 1)]
    parLocation := id
    stateDict := [("N", Val.real 2), ("y[1234]", Val.real 7), ("DO", Val.real 3)]
    prevFinalTime := 100
    simulationTime := 1000 }

/-- Session with a declared parameter holding `None`. -/
def sessMiss : Session :=
  { modelLoaded := true
    parDict := [("Vcc", Val.noneVal), ("N_start", Val.real 50)]
    parLocation := id
    stateDict := [("N", Val.real 2)]
    prevFinalTime := 100
    simulationTime := 1000 }

example : (simu engOK sessA 10 "Continued").calls = [EngineCall.reset] := by decide
example : (simu engOK sessA 10 "Initial").done = true := by decide
example : (simu engOK sessA 10 "Initial").calls
    = [EngineCall.reset, EngineCall.set "Vcc" (Val.real 1),
       EngineCall.set "N_start" (Val.real 50), EngineCall.simulateFinal 10] := by decide
example : (simu engOK sessBad 50 "cont").done = true := by decide
example : (simu engOK sessBad 50 "cont").calls
    = [EngineCall.reset, EngineCall.set "Vcc" (Val.real 1),
       EngineCall.set "N_start" (Val.real 2),
       EngineCall.simulateFromTo 100 (100 + 50)] := by rfl
example : (simu engOK sessBad 50 "cont").reports
    = ["The state vecotr has more than 1000 states"] := by decide
example : (simu engOK sessMiss 50 "badmode").reports = ["Value missing: Vcc"] := by decide
example : (simu engOK sessMiss 50 "badmode").calls = [] := by decide
example : (simu engOK sessA 10 "Initial").sess.stateDict
    = [("N", Val.real 5), ("DO", Val.real 5)] := by decide
example : (simu engOK sessA 10 "Initial").sess.prevFinalTime = 100 := by decide

example : stateToStart "x" = some "x_start" := by decide
example : stateToStart "x[2]" = some "x_start[2]" := by decide
example : stateToStart "x[23]" = some "x_start[23]" := by decide
example : stateToStart "x[234]" = some "x_start[234]" := by decide
example : stateToStart "x[2345]" = none := by decide
example : stateToStart "ab_filterI.y" = some "abI_start" := by decide
example : stateToStart "ab_filterD.x" = some "abD_start" := by decide
example : (par [("Vcc", Val.real 1)] [] [("Vcc", Val.real 2), ("zz", Val.real 3)]).dict
    = [("Vcc", Val.real 2)] := by decide
example : (init [("N_start", Val.real 1)] [("foo_start", Val.real 2)]).dict
    = [("N_start", Val.real 1), ("foo_start", Val.real 2)] := by decide

/-! Association-list lemmas for the parameter store. -/

theorem updateMany_nil (d : List (String × Val)) : updateMany d [] = d := rfl

theorem updateMany_cons (d : List (String × Val)) (kv : String × Val)
    (rest : List (String × Val)) :
    updateMany d (kv :: rest) = updateMany (updateOne d kv.1 kv.2) rest := rfl

theorem lookupD_replaceVal_self (k : String) (v : Val) :
    ∀ d : List (String × Val), hasKey k d = true → lookupD k (replaceVal k v d) = some v := by
  intro d
  induction d with
  | nil => intro h; simp [hasKey, lookupD] at h
  | cons kv rest ih =>
    intro h
    by_cases hk : kv.1 = k
    · simp [replaceVal, hk, lookupD]
    · simp only [replaceVal, hk, if_false, lookupD]
      exact ih (by simpa [hasKey, lookupD, hk] using h)

theorem lookupD_replaceVal_ne (k k' : String) (v : Val) (hne : k' ≠ k) :
    ∀ d : List (String × Val), lookupD k' (replaceVal k v d) = lookupD k' d := by
  intro d
  induction d with
  | nil => simp [replaceVal, lookupD]
  | cons kv rest ih =>
    by_cases hk : kv.1 = k
    · simp [replaceVal, hk, lookupD, Ne.symm hne]
    · simp [replaceVal, hk, lookupD, ih]

theorem lookupD_append_of_none (k : String) (e : List (String × Val)) :
    ∀ d : List (String × Val), lookupD k d = none → lookupD k (d ++ e) = lookupD k e := by
  intro d
  induction d with
  | nil => intro _; rfl
  | cons kv rest ih =>
    intro h
    by_cases hk : kv.1 = k
    · simp [lookupD, hk] at h
    · simp only [lookupD, hk, if_false, List.cons_append] at h ⊢
      exact ih h

theorem lookupD_append_of_some (k : String) (v : Val) (e : List (String × Val)) :
    ∀ d : List (String × Val), lookupD k d = some v → lookupD k (d ++ e) = some v := by
  intro d
  induction d with
  | nil => intro h; simp [lookupD] at h
  | cons kv rest ih =>
    intro h
    by_cases hk : kv.1 = k
    · simp only [lookupD, hk, if_true] at h ⊢
      simpa using h
    · simp only [lookupD, hk, if_false, List.cons_append] at h ⊢
      exact ih h

theorem lookupD_updateOne_self (d : List (String × Val)) (k : String) (v : Val) :
    lookupD k (updateOne d k v) = some v := by
  unfold updateOne
  by_cases h : hasKey k d
  · rw [if_pos h]
    exact lookupD_replaceVal_self k v d h
  · rw [if_neg h]
    have hn : lookupD k d = none := by
      unfold hasKey at h
      cases hl : lookupD k d with
      | none => rfl
      | some w => rw [hl] at h; simp at h
    rw [lookupD_append_of_none k _ d hn]
    simp [lookupD]

theorem lookupD_updateOne_ne (d : List (String × Val)) (k : String) (v : Val)
    (k' : String) (hne : k' ≠ k) : lookupD k' (updateOne d k v) = lookupD k' d := by
  unfold updateOne
  by_cases h : hasKey k d
  · rw [if_pos h]
    exact lookupD_replaceVal_ne k k' v hne d
  · rw [if_neg h]
    cases hl : lookupD k' d with
    | none =>
      rw [lookupD_append_of_none k' _ d hl]
      simp [lookupD, Ne.symm hne]
    | some w => rw [lookupD_append_of_some k' w _ d hl]

theorem lookupD_updateMany_of_not_mem (k : String) :
    ∀ (u : List (String × Val)) (d : List (String × Val)),
      k ∉ u.map Prod.fst → lookupD k (updateMany d u) = lookupD k d := by
  intro u
  induction u with
  | nil => intro d _; rfl
  | cons kv rest ih =>
    intro d h
    rw [List.map_cons, List.mem_cons] at h
    push_neg at h
    rw [updateMany_cons, ih _ h.2, lookupD_updateOne_ne d kv.1 kv.2 k h.1]

theorem lookupD_updateMany_of_mem (k : String) (v : Val) :
    ∀ (u : List (String × Val)) (d : List (String × Val)),
      (k, v) ∈ u → (u.map Prod.fst).Nodup → lookupD k (updateMany d u) = some v := by
  intro u
  induction u with
  | nil => intro d h; simp at h
  | cons kv rest ih =>
    intro d hm hnd
    rw [List.map_cons] at hnd
    rcases List.mem_cons.mp hm with heq | hmem
    · have hk : k ∉ rest.map Prod.fst := by
        have h1 := (List.nodup_cons.mp hnd).1
        rw [← heq] at h1
        exact h1
      rw [updateMany_cons, lookupD_updateMany_of_not_mem k rest _ hk, ← heq,
        lookupD_updateOne_self]
    · exact updateMany_cons d kv rest ▸ ih _ hmem (List.nodup_cons.mp hnd).2

/-- Keys of a filtered update list stay without duplicates. -/
theorem nodup_map_fst_filter (p : String × Val → Bool) (us : List (String × Val))
    (hnd : (us.map Prod.fst).Nodup) : ((us.filter p).map Prod.fst).Nodup :=
  List.Nodup.sublist (List.Sublist.map Prod.fst (List.filter_sublist us)) hnd

/-- A key whose entry fails the filter predicate uniformly in the key is not
among the filtered keys. -/
theorem not_mem_map_fst_filter (q : String → Bool) (us : List (String × Val))
    (k : String) (hk : q k = false) :
    k ∉ (us.filter (fun kv => q kv.1)).map Prod.fst := by
  intro hmem
  obtain ⟨kv, hkv, hfst⟩ := List.mem_map.mp hmem
  have h2 := (List.mem_filter.mp hkv).2
  rw [hfst, hk] at h2
  exact Bool.false_ne_true h2

/-- Fixture: a two-parameter store as declared at session start. -/
def dPar0 : List (String × Val) := [("Vcc", Val.real 1), ("N_start", Val.real 50)]

/-- Fixture: one declared-name update and one misspelled update. -/
def updA : List (String × Val) := [("Vcc", Val.real 2), ("zz", Val.real 9)]

/-- Claim C4: a `par` call with a mapping of updates applies every update
whose name is declared in the store, so that read-back returns exactly the
new value; every undeclared name is reported exactly once and skipped,
leaving the store unchanged (hence still without that key); and rejected
names do not prevent the remaining valid updates, which are applied in one
`dict.update` after staging. -/
theorem par_readback_and_reject_once
    (d : List (String × Val)) (pc : List (List (String × Val) → Bool))
    (us : List (String × Val)) (hnd : (us.map Prod.fst).Nodup) :
    (∀ k v, (k, v) ∈ us → hasKey k d = true → lookupD k (par d pc us).dict = some v)
    ∧ (∀ k v, (k, v) ∈ us → hasKey k d = false →
        List.count k (par d pc us).rejected = 1
        ∧ lookupD k (par d pc us).dict = lookupD k d) := by
  constructor
  · intro k v hm hk
    show lookupD k (updateMany d (us.filter (fun kv => hasKey kv.1 d))) = some v
    exact lookupD_updateMany_of_mem k v _ d
      (List.mem_filter.mpr ⟨hm, hk⟩)
      (nodup_map_fst_filter _ us hnd)
  · intro k v hm hk
    constructor
    · apply List.count_eq_one_of_mem
      · exact nodup_map_fst_filter _ us hnd
      · exact List.mem_map.mpr ⟨(k, v), List.mem_filter.mpr ⟨hm, by simp [hk]⟩, rfl⟩
    · show lookupD k (updateMany d (us.filter (fun kv => hasKey kv.1 d))) = lookupD k d
      exact lookupD_updateMany_of_not_mem k _ d
        (not_mem_map_fst_filter (fun k => hasKey k d) us k hk)

/-- Claim C4, instantiated: updating the declared `Vcc` together with the
undeclared `zz` applies the `Vcc` update, reports `zz` once and leaves the
store without a `zz` key. -/
theorem par_readback_and_reject_once_app :
    lookupD "Vcc" (par dPar0 [] updA).dict = some (Val.real 2)
    ∧ List.count "zz" (par dPar0 [] updA).rejected = 1
    ∧ lookupD "zz" (par dPar0 [] updA).dict = lookupD "zz" dPar0 := by
  have h := par_readback_and_reject_once dPar0 [] updA (by decide)
  have h2 := h.2 "zz" (Val.real 9) (by decide) (by decide)
  exact ⟨h.1 "Vcc" (Val.real 2) (by decide) (by decide), h2.1, h2.2⟩

/-- Claim C5 counterexample: `init` does not restrict updates to names
already declared in the store.  The name `foo_start` is not declared in the
two-name store `dPar0`, yet `init` accepts it with no reported error and it
becomes a new key of the store. -/
theorem init_accepts_undeclared_cex :
    hasKey "foo_start" dPar0 = false
    ∧ lookupD "foo_start" (init dPar0 [("foo_start", Val.real 3)]).dict = some (Val.real 3)
    ∧ (init dPar0 [("foo_start", Val.real 3)]).rejected = [] := by decide

/-- Claim C5 (amended): `par` rejects any name not already declared — the
name is reported, skipped and never becomes a store key; `init` instead
filters only on the name itself: a name not containing the `_start` marker
is reported and skipped, leaving the store unchanged, while any name
containing `_start` is applied without a declaration check, so an
undeclared such name becomes a new key holding the given value. -/
theorem update_ops_acceptance_rules :
    (∀ (d : List (String × Val)) (pc : List (List (String × Val) → Bool))
        (us : List (String × Val)) (k : String) (v : Val), (k, v) ∈ us →
        hasKey k d = false →
        k ∈ (par d pc us).rejected ∧ lookupD k (par d pc us).dict = none)
    ∧ (∀ (d us : List (String × Val)) (k : String) (v : Val), (k, v) ∈ us →
        hasSub "_start".data k.data = false →
        k ∈ (init d us).rejected ∧ lookupD k (init d us).dict = lookupD k d)
    ∧ (∀ (d us : List (String × Val)) (k : String) (v : Val), (k, v) ∈ us →
        hasSub "_start".data k.data = true → (us.map Prod.fst).Nodup →
        lookupD k (init d us).dict = some v) := by
  refine ⟨?_, ?_, ?_⟩
  · intro d pc us k v hm hk
    constructor
    · exact List.mem_map.mpr ⟨(k, v), List.mem_filter.mpr ⟨hm, by simp [hk]⟩, rfl⟩
    · show lookupD k (updateMany d (us.filter (fun kv => hasKey kv.1 d))) = none
      rw [lookupD_updateMany_of_not_mem k _ d
        (not_mem_map_fst_filter (fun k => hasKey k d) us k hk)]
      unfold hasKey at hk
      cases hl : lookupD k d with
      | none => rfl
      | some w => rw [hl] at hk; simp at hk
  · intro d us k v hm hk
    constructor
    · exact List.mem_map.mpr ⟨(k, v), List.mem_filter.mpr ⟨hm, by simp [hk]⟩, rfl⟩
    · show lookupD k (updateMany d (us.filter (fun kv => hasSub "_start".data kv.1.data)))
          = lookupD k d
      exact lookupD_updateMany_of_not_mem k _ d
        (not_mem_map_fst_filter (fun k => hasSub "_start".data k.data) us k hk)
  · intro d us k v hm hk hnd
    show lookupD k (updateMany d (us.filter (fun kv => hasSub "_start".data kv.1.data)))
        = some v
    exact lookupD_updateMany_of_mem k v _ d
      (List.mem_filter.mpr ⟨hm, hk⟩)
      (nodup_map_fst_filter _ us hnd)

/-- Claim C5 (amended), instantiated: `par` rejects the undeclared `zz`
without creating a key; `init` rejects `Vcc` (no `_start` marker) and
accepts the undeclared `foo_start`, which becomes a key. -/
theorem update_ops_acceptance_rules_app :
    ("zz" ∈ (par dPar0 [] updA).rejected
      ∧ lookupD "zz" (par dPar0 [] updA).dict = none)
    ∧ ("Vcc" ∈ (init dPar0 [("Vcc", Val.real 4)]).rejected
      ∧ lookupD "Vcc" (init dPar0 [("Vcc", Val.real 4)]).dict = lookupD "Vcc" dPar0)
    ∧ lookupD "foo_start" (init dPar0 [("foo_start", Val.real 3)]).dict
      = some (Val.real 3) := by
  refine ⟨update_ops_acceptance_rules.1 dPar0 [] updA "zz" (Val.real 9)
      (by decide) (by decide),
    update_ops_acceptance_rules.2.1 dPar0 [("Vcc", Val.real 4)] "Vcc" (Val.real 4)
      (by decide) (by decide),
    update_ops_acceptance_rules.2.2 dPar0 [("foo_start", Val.real 3)] "foo_start"
      (Val.real 3) (by decide) (by decide) (by decide)⟩

/-! Lemmas about the state-name translation. -/

/-- Indexing from the end only looks at the suffix that contains the index. -/
theorem getFromEnd_append (a b : List Char) (i : Nat) (h1 : 1 ≤ i)
    (h2 : i ≤ b.length) : getFromEnd (a ++ b) i = getFromEnd b i := by
  unfold getFromEnd
  rw [List.length_append, if_pos ⟨h1, by omega⟩, if_pos ⟨h1, h2⟩,
    List.getElem?_append_right (by omega)]
  congr 1
  omega

/-- The last character, read as `key[-1]`, is a one-character suffix. -/
theorem getFromEnd_one_suffix (l : List Char) (c : Char)
    (h : getFromEnd l 1 = some c) : [c] <:+ l := by
  induction l using List.reverseRecOn with
  | nil => simp [getFromEnd] at h
  | append_singleton as a _ =>
    rw [getFromEnd_append as [a] 1 (by omega) (by simp)] at h
    simp [getFromEnd] at h
    exact ⟨as, by rw [h]⟩

/-- A digit is not an opening bracket. -/
theorem digit_ne_bracket (c : Char) (h : c.isDigit = true) : c ≠ '[' := by
  intro he
  rw [he] at h
  exact absurd h (by decide)

/-- Translation, plain-scalar branch: a nonempty name that does not end in
`]`, `I.y` or `D.x` gets `_start` appended. -/
theorem transKey_plain (key : List Char) (_h0 : key ≠ [])
    (hb : ¬([']'] <:+ key)) (hiy : ¬(['I', '.', 'y'] <:+ key))
    (hdx : ¬(['D', '.', 'x'] <:+ key)) :
    transKey key = some (key ++ "_start".data) := by
  have c1 : getFromEnd key 1 ≠ some ']' := fun he => hb (getFromEnd_one_suffix key ']' he)
  have c2 : key.drop (key.length - 3) ≠ ['I', '.', 'y'] :=
    fun he => hiy (he ▸ List.drop_suffix _ _)
  have c3 : key.drop (key.length - 3) ≠ ['D', '.', 'x'] :=
    fun he => hdx (he ▸ List.drop_suffix _ _)
  rw [transKey, if_pos c1, if_neg c2, if_neg c3]

/-- Translation, integrator-filter branch: a name ending in `I.y` has its
last 10 characters removed and `I_start` appended. -/
theorem transKey_Iy (pre : List Char) :
    transKey (pre ++ ['I', '.', 'y'])
      = some ((pre ++ ['I', '.', 'y']).take ((pre ++ ['I', '.', 'y']).length - 10)
          ++ "I_start".data) := by
  have e1 : getFromEnd (pre ++ ['I', '.', 'y']) 1 = some 'y' := by
    rw [getFromEnd_append pre _ 1 (by omega) (by simp)]
    rfl
  have ed : (pre ++ ['I', '.', 'y']).drop ((pre ++ ['I', '.', 'y']).length - 3)
      = ['I', '.', 'y'] := List.drop_left' (by simp)
  rw [transKey, if_pos (by rw [e1]; simp), if_pos ed]

/-- Translation, discrete-filter branch: a name ending in `D.x` has its
last 10 characters removed and `D_start` appended. -/
theorem transKey_Dx (pre : List Char) :
    transKey (pre ++ ['D', '.', 'x'])
      = some ((pre ++ ['D', '.', 'x']).take ((pre ++ ['D', '.', 'x']).length - 10)
          ++ "D_start".data) := by
  have e1 : getFromEnd (pre ++ ['D', '.', 'x']) 1 = some 'x' := by
    rw [getFromEnd_append pre _ 1 (by omega) (by simp)]
    rfl
  have ed : (pre ++ ['D', '.', 'x']).drop ((pre ++ ['D', '.', 'x']).length - 3)
      = ['D', '.', 'x'] := List.drop_left' (by simp)
  have c2 : (pre ++ ['D', '.', 'x']).drop ((pre ++ ['D', '.', 'x']).length - 3)
      ≠ ['I', '.', 'y'] := by rw [ed]; simp
  rw [transKey, if_pos (by rw [e1]; simp), if_neg c2, if_pos ed]

/-- Translation, array branch: a name ending in a bracketed index of one to
three digits has `_start` inserted immediately before the opening bracket. -/
theorem transKey_array (base ds : List Char) (h1 : 1 ≤ ds.length)
    (h3 : ds.length ≤ 3) (hd : ∀ c ∈ ds, c.isDigit = true) :
    transKey (base ++ '[' :: ds ++ [']'])
      = some (base ++ "_start".data ++ '[' :: ds ++ [']']) := by
  match ds, h1, h3 with
  | [d1], _, _ =>
    simp only [List.append_assoc, List.cons_append, List.nil_append]
    have e1 : getFromEnd (base ++ ['[', d1, ']']) 1 = some ']' := by
      rw [getFromEnd_append base _ 1 (by omega) (by simp)]
      rfl
    have e3 : getFromEnd (base ++ ['[', d1, ']']) 3 = some '[' := by
      rw [getFromEnd_append base _ 3 (by omega) (by simp)]
      rfl
    have et : (base ++ ['[', d1, ']']).take ((base ++ ['[', d1, ']']).length - 3)
        = base := List.take_left' (by simp)
    have ed : (base ++ ['[', d1, ']']).drop ((base ++ ['[', d1, ']']).length - 3)
        = ['[', d1, ']'] := List.drop_left' (by simp)
    rw [transKey, if_neg (by rw [e1]; simp), if_pos e3, et, ed, List.append_assoc]
    rfl
  | [d1, d2], _, _ =>
    simp only [List.append_assoc, List.cons_append, List.nil_append]
    have hd1 : d1 ≠ '[' := digit_ne_bracket d1 (hd d1 (by simp))
    have e1 : getFromEnd (base ++ ['[', d1, d2, ']']) 1 = some ']' := by
      rw [getFromEnd_append base _ 1 (by omega) (by simp)]
      rfl
    have e3 : getFromEnd (base ++ ['[', d1, d2, ']']) 3 = some d1 := by
      rw [getFromEnd_append base _ 3 (by omega) (by simp)]
      rfl
    have e4 : getFromEnd (base ++ ['[', d1, d2, ']']) 4 = some '[' := by
      rw [getFromEnd_append base _ 4 (by omega) (by simp)]
      rfl
    have et : (base ++ ['[', d1, d2, ']']).take ((base ++ ['[', d1, d2, ']']).length - 4)
        = base := List.take_left' (by simp)
    have ed : (base ++ ['[', d1, d2, ']']).drop ((base ++ ['[', d1, d2, ']']).length - 4)
        = ['[', d1, d2, ']'] := List.drop_left' (by simp)
    rw [transKey, if_neg (by rw [e1]; simp), if_neg (by rw [e3]; simp [hd1]),
      if_pos e4, et, ed, List.append_assoc]
    rfl
  | [d1, d2, d3], _, _ =>
    simp only [List.append_assoc, List.cons_append, List.nil_append]
    have hd1 : d1 ≠ '[' := digit_ne_bracket d1 (hd d1 (by simp))
    have hd2 : d2 ≠ '[' := digit_ne_bracket d2 (hd d2 (by simp))
    have e1 : getFromEnd (base ++ ['[', d1, d2, d3, ']']) 1 = some ']' := by
      rw [getFromEnd_append base _ 1 (by omega) (by simp)]
      rfl
    have e3 : getFromEnd (base ++ ['[', d1, d2, d3, ']']) 3 = some d2 := by
      rw [getFromEnd_append base _ 3 (by omega) (by simp)]
      rfl
    have e4 : getFromEnd (base ++ ['[', d1, d2, d3, ']']) 4 = some d1 := by
      rw [getFromEnd_append base _ 4 (by omega) (by simp)]
      rfl
    have e5 : getFromEnd (base ++ ['[', d1, d2, d3, ']']) 5 = some '[' := by
      rw [getFromEnd_append base _ 5 (by omega) (by simp)]
      rfl
    have et : (base ++ ['[', d1, d2, d3, ']']).take
        ((base ++ ['[', d1, d2, d3, ']']).length - 5) = base := List.take_left' (by simp)
    have ed : (base ++ ['[', d1, d2, d3, ']']).drop
        ((base ++ ['[', d1, d2, d3, ']']).length - 5) = ['[', d1, d2, d3, ']'] :=
      List.drop_left' (by simp)
    rw [transKey, if_neg (by rw [e1]; simp), if_neg (by rw [e3]; simp [hd2]),
      if_neg (by rw [e4]; simp [hd1]), if_pos e5, et, ed, List.append_assoc]
    rfl

/-- Claim C1: state-name translation is a pure function of the state name
(translating twice gives the same result), and for every state name the
result follows the four branches: a plain scalar name gets `_start`
appended; a name with a bracketed index of one to three digits gets
`_start` inserted immediately before the opening bracket; a name ending in
the integrator-filter tail `I.y` has its last 10 characters removed and
`I_start` appended; a name ending in the discrete-filter tail `D.x` has
its last 10 characters removed and `D_start` appended. -/
theorem stateTranslation_four_branches :
    (∀ key : String, stateToStart key = stateToStart key)
    ∧ (∀ key : String, key.data ≠ [] →
        ¬([']'] <:+ key.data) → ¬(['I', '.', 'y'] <:+ key.data) →
        ¬(['D', '.', 'x'] <:+ key.data) →
        stateToStart key = some (key ++ "_start"))
    ∧ (∀ (base ds : List Char), 1 ≤ ds.length → ds.length ≤ 3 →
        (∀ c ∈ ds, c.isDigit = true) →
        stateToStart ⟨base ++ '[' :: ds ++ [']']⟩
          = some ⟨base ++ "_start".data ++ '[' :: ds ++ [']']⟩)
    ∧ (∀ pre : List Char,
        stateToStart ⟨pre ++ ['I', '.', 'y']⟩
          = some ⟨(pre ++ ['I', '.', 'y']).take ((pre ++ ['I', '.', 'y']).length - 10)
              ++ "I_start".data⟩)
    ∧ (∀ pre : List Char,
        stateToStart ⟨pre ++ ['D', '.', 'x']⟩
          = some ⟨(pre ++ ['D', '.', 'x']).take ((pre ++ ['D', '.', 'x']).length - 10)
              ++ "D_start".data⟩) := by
  refine ⟨fun _ => rfl, ?_, ?_, ?_, ?_⟩
  · intro key h0 hb hiy hdx
    obtain ⟨l⟩ := key
    show (transKey l).map (fun m => (⟨m⟩ : String)) = _
    rw [transKey_plain l h0 hb hiy hdx]
    rfl
  · intro base ds h1 h3 hd
    show (transKey (base ++ '[' :: ds ++ [']'])).map (fun m => (⟨m⟩ : String)) = _
    rw [transKey_array base ds h1 h3 hd]
    rfl
  · intro pre
    show (transKey (pre ++ ['I', '.', 'y'])).map (fun m => (⟨m⟩ : String)) = _
    rw [transKey_Iy pre]
    rfl
  · intro pre
    show (transKey (pre ++ ['D', '.', 'x'])).map (fun m => (⟨m⟩ : String)) = _
    rw [transKey_Dx pre]
    rfl

/-- Claim C1, instantiated on one fixture per branch. -/
theorem stateTranslation_four_branches_app :
    stateToStart "x" = some "x_start"
    ∧ stateToStart "x[2]" = some "x_start[2]"
    ∧ stateToStart "ab_filterI.y" = some "abI_start"
    ∧ stateToStart "ab_filterD.x" = some "abD_start" := by
  refine ⟨?_, ?_, ?_, ?_⟩
  · exact stateTranslation_four_branches.2.1 "x" (by decide) (by decide)
      (by decide) (by decide)
  · exact stateTranslation_four_branches.2.2.1 "x".data ['2'] (by decide)
      (by decide) (by decide)
  · exact stateTranslation_four_branches.2.2.2.1 "ab_filter".data
  · exact stateTranslation_four_branches.2.2.2.2 "ab_filter".data

/-! Lemmas about the session controller. -/

/-- Unfolding `simu`: the missing-value gate decides between the abort record
and the mode dispatch on the loaded-and-reset session. -/
theorem simu_unfold (eng : Engine) (s0 : Session) (d : ℚ) (mode : String) :
    simu eng s0 d mode =
      if missingReports s0.parDict = [] then
        simuRun eng { s0 with simulationTime := d, modelLoaded := true }
          (if s0.modelLoaded then [EngineCall.reset]
           else [EngineCall.load, EngineCall.reset]) mode
      else
        { sess := { s0 with simulationTime := d }, calls := [],
          reports := missingReports s0.parDict, done := false, raised := false } := rfl

/-- Behaviour of `simu` when no parameter value is missing. -/
theorem simu_not_missing (eng : Engine) (s0 : Session) (d : ℚ) (mode : String)
    (hmiss : missingReports s0.parDict = []) :
    simu eng s0 d mode =
      simuRun eng { s0 with simulationTime := d, modelLoaded := true }
        (if s0.modelLoaded then [EngineCall.reset]
         else [EngineCall.load, EngineCall.reset]) mode := by
  rw [simu_unfold, if_pos hmiss]

/-- The `Continued` spellings are not `Initial` spellings. -/
theorem not_initial_of_cont (mode : String) (hm : mode ∈ contModes) :
    mode ∉ initialModes := by
  fin_cases hm <;> decide

/-- The load/reset calls made before the mode dispatch are neither simulate
nor set calls. -/
theorem pre_calls_no_sim_set (b : Bool) :
    ∀ c ∈ (if b then [EngineCall.reset] else [EngineCall.load, EngineCall.reset]),
      isSimulateCall c = false ∧ isSetCall c = false := by
  cases b <;> decide

/-- The mode dispatch in `Initial` mode with a working engine. -/
theorem simuRun_initial (eng : Engine) (s : Session) (pre : List EngineCall)
    (mode : String) (hm : mode ∈ initialModes) (hok : eng.simulateOk = true) :
    simuRun eng s pre mode =
      finishRun eng s
        (pre ++ pushPars s.parLocation s.parDict ++ [EngineCall.simulateFinal s.simulationTime])
        [] := by
  rw [simuRun, if_pos hm, runEngine, if_pos hok]

/-- The mode dispatch in `Continued` mode after a completed run, with a
working engine. -/
theorem simuRun_cont (eng : Engine) (s : Session) (pre : List EngineCall)
    (mode : String) (hm : mode ∈ contModes) (hmi : mode ∉ initialModes)
    (hp : ¬(s.prevFinalTime = 0)) (hok : eng.simulateOk = true) :
    simuRun eng s pre mode =
      finishRun eng s
        (pre ++ pushPars s.parLocation s.parDict ++ (pushStates s.stateDict).1
          ++ [EngineCall.simulateFromTo s.prevFinalTime (s.prevFinalTime + s.simulationTime)])
        (pushStates s.stateDict).2 := by
  rw [simuRun, if_neg hmi, if_pos hm, if_neg hp, runEngine, if_pos hok]

/-- Re-reading every state keeps exactly the keys. -/
theorem map_fst_map_pair (f : String → Val) :
    ∀ l : List (String × Val),
      (l.map (fun kv => (kv.1, f kv.1))).map Prod.fst = l.map Prod.fst := by
  intro l
  induction l with
  | nil => rfl
  | cons kv rest ih => simp [ih]

/-- Push-loop step on a translatable state name. -/
theorem pushStates_cons_some (k : String) (v : Val) (rest : List (String × Val))
    (m : List Char) (hm : transKey k.data = some m) :
    pushStates ((k, v) :: rest)
      = (EngineCall.set ⟨m⟩ v :: (pushStates rest).1, (pushStates rest).2) := by
  conv_lhs => rw [pushStates]
  rw [hm]

/-- Push-loop step on an untranslatable state name. -/
theorem pushStates_cons_none (k : String) (v : Val) (rest : List (String × Val))
    (hm : transKey k.data = none) :
    pushStates ((k, v) :: rest)
      = ([], ["The state vecotr has more than 1000 states"]) := by
  conv_lhs => rw [pushStates]
  rw [hm]

/-- When every state name up to a point translates, the push loop emits one
set call per state, on the translated location. -/
theorem pushStates_mem (l : List (String × Val))
    (htr : ∀ kv ∈ l, (stateToStart kv.1).isSome = true) :
    ∀ kv ∈ l, ∃ loc, stateToStart kv.1 = some loc
      ∧ EngineCall.set loc kv.2 ∈ (pushStates l).1 := by
  induction l with
  | nil => intro kv h; simp at h
  | cons hd tl ih =>
    intro kv hkv
    obtain ⟨k, v⟩ := hd
    have hk := htr (k, v) (by simp)
    obtain ⟨m, hm⟩ : ∃ m, transKey k.data = some m := by
      cases ht : transKey k.data with
      | none => rw [show stateToStart k = (transKey k.data).map (fun l => (⟨l⟩ : String)) from rfl, ht] at hk; simp at hk
      | some m => exact ⟨m, rfl⟩
    rcases List.mem_cons.mp hkv with heq | hmem
    · subst heq
      refine ⟨⟨m⟩, ?_, ?_⟩
      · show (transKey k.data).map (fun l => (⟨l⟩ : String)) = some ⟨m⟩
        rw [hm]
        rfl
      · show EngineCall.set ⟨m⟩ v ∈ (pushStates ((k, v) :: tl)).1
        rw [pushStates_cons_some k v tl m hm]
        exact List.mem_cons_self _ _
    · obtain ⟨loc, h1, h2⟩ := ih (fun kv h => htr kv (List.mem_cons_of_mem _ h)) kv hmem
      refine ⟨loc, h1, ?_⟩
      show EngineCall.set loc kv.2 ∈ (pushStates ((k, v) :: tl)).1
      rw [pushStates_cons_some k v tl m hm]
      exact List.mem_cons_of_mem _ h2

/-- The push loop stops at the first untranslatable name: the set calls are
exactly those of the preceding states and the warning is printed once. -/
theorem pushStates_stops (badKey : String) (bv : Val) (rest : List (String × Val))
    (hbad : transKey badKey.data = none) :
    ∀ good : List (String × Val), (∀ kv ∈ good, (transKey kv.1.data).isSome = true) →
      pushStates (good ++ (badKey, bv) :: rest)
        = ((pushStates good).1, ["The state vecotr has more than 1000 states"]) := by
  intro good
  induction good with
  | nil =>
    intro _
    show pushStates ((badKey, bv) :: rest) = _
    rw [pushStates_cons_none badKey bv rest hbad]
    rfl
  | cons hd tl ih =>
    intro hg
    obtain ⟨k, v⟩ := hd
    have hk := hg (k, v) (by simp)
    obtain ⟨m, hm⟩ : ∃ m, transKey k.data = some m := by
      cases ht : transKey k.data with
      | none => rw [ht] at hk; simp at hk
      | some m => exact ⟨m, rfl⟩
    have ihh := ih (fun kv h => hg kv (List.mem_cons_of_mem _ h))
    show pushStates ((k, v) :: (tl ++ (badKey, bv) :: rest)) = _
    rw [pushStates_cons_some k v _ m hm, ihh,
      pushStates_cons_some k v tl m hm]

/-- Session fields across every outcome of the mode dispatch: the requested
run length is never touched by the dispatch; a failed dispatch leaves the
continuation state unchanged; a completed dispatch re-reads every state and
advances the previous final time; keys are always preserved. -/
theorem simuRun_cases (eng : Engine) (s : Session) (pre : List EngineCall)
    (mode : String) :
    (simuRun eng s pre mode).sess.simulationTime = s.simulationTime
    ∧ ((simuRun eng s pre mode).done = false →
        (simuRun eng s pre mode).sess.prevFinalTime = s.prevFinalTime
        ∧ (simuRun eng s pre mode).sess.stateDict = s.stateDict)
    ∧ ((simuRun eng s pre mode).done = true →
        (simuRun eng s pre mode).sess.stateDict
          = s.stateDict.map (fun kv => (kv.1, eng.readState kv.1))
        ∧ (simuRun eng s pre mode).sess.prevFinalTime = eng.finalTime)
    ∧ (simuRun eng s pre mode).sess.stateDict.map Prod.fst
        = s.stateDict.map Prod.fst := by
  unfold simuRun runEngine finishRun
  repeat' split
  all_goals simp [map_fst_map_pair]

/-- Claim C8 (amended): on every failed `simu` call — missing parameter
value, illegal continuation, unrecognized mode, or an engine exception —
the previous end time and the captured state values are left untouched; the
requested run length, however, is overwritten with the call argument at
entry on every call, failed or not. -/
theorem failed_run_preserves_continuation_state (eng : Engine) (s0 : Session)
    (d : ℚ) (mode : String) :
    (simu eng s0 d mode).sess.simulationTime = d
    ∧ ((simu eng s0 d mode).done = false →
        (simu eng s0 d mode).sess.prevFinalTime = s0.prevFinalTime
        ∧ (simu eng s0 d mode).sess.stateDict = s0.stateDict) := by
  rw [simu_unfold]
  by_cases hmiss : missingReports s0.parDict = []
  · rw [if_pos hmiss]
    have h := simuRun_cases eng { s0 with simulationTime := d, modelLoaded := true }
      (if s0.modelLoaded then [EngineCall.reset]
       else [EngineCall.load, EngineCall.reset]) mode
    exact ⟨h.1, h.2.1⟩
  · rw [if_neg hmiss]
    exact ⟨rfl, fun _ => ⟨rfl, rfl⟩⟩

/-- Claim C8 (amended), instantiated on a failed continuation call: the
continuation state survives but the run length is overwritten. -/
theorem failed_run_preserves_continuation_state_app :
    (simu engOK sessA 10 "Continued").sess.simulationTime = 10
    ∧ (simu engOK sessA 10 "Continued").sess.prevFinalTime = sessA.prevFinalTime
    ∧ (simu engOK sessA 10 "Continued").sess.stateDict = sessA.stateDict := by
  have h := failed_run_preserves_continuation_state engOK sessA 10 "Continued"
  have h2 := h.2 (by decide)
  exact ⟨h.1, h2.1, h2.2⟩

/-- Claim C8 counterexample: a failed call does not leave the whole session
state untouched — the current requested run length is overwritten at entry.
`sessA` holds run length 1000; the failed continuation call with duration 10
leaves it at 10. -/
theorem failed_run_updates_run_length_cex :
    (simu engOK sessA 10 "Continued").done = false
    ∧ sessA.simulationTime = 1000
    ∧ (simu engOK sessA 10 "Continued").sess.simulationTime = 10 := by decide

/-- Claim C9: after every successful run the captured-state mapping holds,
for every name it contained, the engine's current value of that state, and
the previous final time advances to the engine's reported final time; the
key set of the mapping is preserved by every call, successful or not. -/
theorem successful_run_captures_states (eng : Engine) (s0 : Session) (d : ℚ)
    (mode : String) :
    ((simu eng s0 d mode).done = true →
      (simu eng s0 d mode).sess.stateDict
        = s0.stateDict.map (fun kv => (kv.1, eng.readState kv.1))
      ∧ (simu eng s0 d mode).sess.prevFinalTime = eng.finalTime)
    ∧ (simu eng s0 d mode).sess.stateDict.map Prod.fst
        = s0.stateDict.map Prod.fst := by
  rw [simu_unfold]
  by_cases hmiss : missingReports s0.parDict = []
  · rw [if_pos hmiss]
    have h := simuRun_cases eng { s0 with simulationTime := d, modelLoaded := true }
      (if s0.modelLoaded then [EngineCall.reset]
       else [EngineCall.load, EngineCall.reset]) mode
    exact ⟨h.2.2.1, h.2.2.2⟩
  · rw [if_neg hmiss]
    exact ⟨fun hc => (Bool.false_ne_true hc).elim, rfl⟩

/-- Claim C9, instantiated on a successful `Initial` run: both states are
re-read from the engine and the previous final time becomes the engine's
reported 100. -/
theorem successful_run_captures_states_app :
    (simu engOK sessA 10 "Initial").sess.stateDict
      = [("N", Val.real 5), ("DO", Val.real 5)]
    ∧ (simu engOK sessA 10 "Initial").sess.prevFinalTime = 100 := by
  have h := (successful_run_captures_states engOK sessA 10 "Initial").1 (by decide)
  exact ⟨h.1.trans (by decide), h.2.trans (by decide)⟩

/-- Claim C2 counterexample: a continuation attempt with no completed prior
run does fail, but an engine call still occurs: the model is reset before
the continuation check, so the call trace is `[reset]`, not empty. -/
theorem cont_without_prior_engine_reset_cex :
    (simu engOK sessA 10 "Continued").calls = [EngineCall.reset]
    ∧ (simu engOK sessA 10 "Continued").calls ≠ []
    ∧ (simu engOK sessA 10 "Continued").done = false := by decide

/-- Claim C2 (amended): a continuation call with previous end time 0 fails
with an error report, makes no simulate call and pushes no values (no set
call) — though the engine is still reset, and loaded if needed, before the
mode check — and the previous end time and captured state values are left
unchanged. -/
theorem cont_without_prior_fails_no_push (eng : Engine) (s0 : Session) (d : ℚ)
    (mode : String) (hm : mode ∈ contModes) (h0 : s0.prevFinalTime = 0) :
    (∀ c ∈ (simu eng s0 d mode).calls, isSimulateCall c = false ∧ isSetCall c = false)
    ∧ (simu eng s0 d mode).reports ≠ []
    ∧ (simu eng s0 d mode).done = false
    ∧ (simu eng s0 d mode).sess.prevFinalTime = s0.prevFinalTime
    ∧ (simu eng s0 d mode).sess.stateDict = s0.stateDict := by
  by_cases hmiss : missingReports s0.parDict = []
  · rw [simu_not_missing eng s0 d mode hmiss]
    have hmi := not_initial_of_cont mode hm
    rw [simuRun, if_neg hmi, if_pos hm,
      if_pos (show ({ s0 with simulationTime := d, modelLoaded := true }
        : Session).prevFinalTime = 0 from h0)]
    exact ⟨pre_calls_no_sim_set s0.modelLoaded, by simp, rfl, rfl, rfl⟩
  · rw [simu_unfold, if_neg hmiss]
    exact ⟨by simp, hmiss, rfl, rfl, rfl⟩

/-- Claim C2 (amended), instantiated on `sessA` (previous end time 0). -/
theorem cont_without_prior_fails_no_push_app :
    isSimulateCall EngineCall.reset = false
    ∧ (simu engOK sessA 10 "cont").reports ≠ []
    ∧ (simu engOK sessA 10 "cont").done = false
    ∧ (simu engOK sessA 10 "cont").sess.prevFinalTime = sessA.prevFinalTime
    ∧ (simu engOK sessA 10 "cont").sess.stateDict = sessA.stateDict := by
  have h := cont_without_prior_fails_no_push engOK sessA 10 "cont"
    (by decide) (by decide)
  exact ⟨(h.1 EngineCall.reset (by decide)).1, h.2.1, h.2.2.1, h.2.2.2.1, h.2.2.2.2⟩

/-- Claim C7: when a declared parameter holds a missing value (`np.nan`,
`None` or the empty string), `simu` aborts before touching the engine — the
call trace is empty, so no load, reset, set or simulate call is made — every
missing parameter name is reported, and the session continuation state is
untouched. -/
theorem missing_value_aborts_before_engine (eng : Engine) (s0 : Session)
    (d : ℚ) (mode : String) (k : String) (v : Val)
    (hk : (k, v) ∈ s0.parDict) (hv : missingVal v = true) :
    (simu eng s0 d mode).calls = []
    ∧ (simu eng s0 d mode).done = false
    ∧ (∀ k' v', (k', v') ∈ s0.parDict → missingVal v' = true →
        ("Value missing: " ++ k') ∈ (simu eng s0 d mode).reports)
    ∧ (simu eng s0 d mode).sess.prevFinalTime = s0.prevFinalTime
    ∧ (simu eng s0 d mode).sess.stateDict = s0.stateDict := by
  have hne : missingReports s0.parDict ≠ [] := by
    unfold missingReports
    intro he
    have hmem : (k, v) ∈ s0.parDict.filter (fun kv => missingVal kv.2) :=
      List.mem_filter.mpr ⟨hk, hv⟩
    rw [List.map_eq_nil_iff] at he
    rw [he] at hmem
    exact List.not_mem_nil _ hmem
  rw [simu_unfold, if_neg hne]
  refine ⟨rfl, rfl, ?_, rfl, rfl⟩
  intro k' v' hk' hv'
  exact List.mem_map.mpr ⟨(k', v'), List.mem_filter.mpr ⟨hk', hv'⟩, rfl⟩

/-- Claim C7, instantiated on a store whose `Vcc` holds `None`. -/
theorem missing_value_aborts_before_engine_app :
    (simu engOK sessMiss 50 "Initial").calls = []
    ∧ (simu engOK sessMiss 50 "Initial").done = false
    ∧ "Value missing: Vcc" ∈ (simu engOK sessMiss 50 "Initial").reports := by
  have h := missing_value_aborts_before_engine engOK sessMiss 50 "Initial"
    "Vcc" Val.noneVal (by decide) (by decide)
  exact ⟨h.1, h.2.1, h.2.2.1 "Vcc" Val.noneVal (by decide) (by decide)⟩

/-- Claim C10 counterexample: a call with an unrecognized mode does not
always report "Simulation mode not correct" — when a parameter value is
missing, the call aborts at the missing-value check first and reports only
the missing name. -/
theorem bad_mode_with_missing_value_cex :
    (simu engOK sessMiss 50 "badmode").reports = ["Value missing: Vcc"]
    ∧ "Simulation mode not correct" ∉ (simu engOK sessMiss 50 "badmode").reports := by
  decide

/-- Claim C10 (amended): a call with a mode outside the recognized
spellings never invokes simulate and leaves the previous end time and
captured states unchanged; provided no declared parameter value is missing
(otherwise the call aborts earlier, reporting only the missing names), it
reports that the simulation mode is not correct and that no simulation was
done. -/
theorem bad_mode_no_simulate (eng : Engine) (s0 : Session) (d : ℚ)
    (mode : String) (hmi : mode ∉ initialModes) (hmc : mode ∉ contModes) :
    (∀ c ∈ (simu eng s0 d mode).calls, isSimulateCall c = false)
    ∧ (simu eng s0 d mode).done = false
    ∧ (simu eng s0 d mode).sess.prevFinalTime = s0.prevFinalTime
    ∧ (simu eng s0 d mode).sess.stateDict = s0.stateDict
    ∧ (missingReports s0.parDict = [] →
        (simu eng s0 d mode).reports
          = ["Simulation mode not correct", "Error: No simulation done"]) := by
  by_cases hmiss : missingReports s0.parDict = []
  · rw [simu_not_missing eng s0 d mode hmiss]
    rw [simuRun, if_neg hmi, if_neg hmc]
    exact ⟨fun c hc => (pre_calls_no_sim_set s0.modelLoaded c hc).1,
      rfl, rfl, rfl, fun _ => rfl⟩
  · rw [simu_unfold, if_neg hmiss]
    exact ⟨by simp, rfl, rfl, rfl, fun hc => absurd hc hmiss⟩

/-- Claim C10 (amended), instantiated on mode string `"wrong"`. -/
theorem bad_mode_no_simulate_app :
    (simu engOK sessA 10 "wrong").done = false
    ∧ (simu engOK sessA 10 "wrong").sess.prevFinalTime = sessA.prevFinalTime
    ∧ (simu engOK sessA 10 "wrong").sess.stateDict = sessA.stateDict
    ∧ (simu engOK sessA 10 "wrong").reports
        = ["Simulation mode not correct", "Error: No simulation done"] := by
  have h := bad_mode_no_simulate engOK sessA 10 "wrong" (by decide) (by decide)
  exact ⟨h.2.1, h.2.2.1, h.2.2.2.1, h.2.2.2.2 (by decide)⟩

/-- Session after a completed run, with translatable state names. -/
def sessPrev : Session :=
  { modelLoaded := true
    parDict := [("Vcc", Val.real 1)]
    parLocation := id
    stateDict := [("N", Val.real 2)]
    prevFinalTime := 100
    simulationTime := 1000 }

/-- Claim C6 counterexample: a continued run that completes successfully in
which a captured state is NOT pushed.  In `sessBad` the state `DO` follows
the untranslatable name `y[1234]`, so the push loop breaks before it: the
run succeeds but no set call for `DO_start` is made. -/
theorem continued_run_missing_state_push_cex :
    (simu engOK sessBad 50 "Continued").done = true
    ∧ ("DO", Val.real 3) ∈ sessBad.stateDict
    ∧ stateToStart "DO" = some "DO_start"
    ∧ EngineCall.set "DO_start" (Val.real 3) ∉ (simu engOK sessBad 50 "Continued").calls := by
  decide

/-- Claim C6 (amended): for every successful run, in `Initial` mode the
engine is invoked over `[0, duration]` (only the final time is passed; the
engine defaults the start to 0) after every parameter store entry is
pushed; in `Continued` mode with a completed prior run every parameter
store entry is pushed and the engine is invoked over
`[previousEnd, previousEnd + duration]`; every captured state is pushed as
an initial value provided every captured state name matches a translation
pattern (otherwise the push loop stops early while the run still goes on,
see the counterexample). -/
theorem run_intervals_and_pushes (eng : Engine) (s0 : Session) (d : ℚ)
    (mode : String) :
    (mode ∈ initialModes → missingReports s0.parDict = [] → eng.simulateOk = true →
      (simu eng s0 d mode).done = true
      ∧ EngineCall.simulateFinal d ∈ (simu eng s0 d mode).calls
      ∧ simInterval (EngineCall.simulateFinal d) = some (0, d)
      ∧ ∀ kv ∈ s0.parDict,
          EngineCall.set (s0.parLocation kv.1) kv.2 ∈ (simu eng s0 d mode).calls)
    ∧ (mode ∈ contModes → missingReports s0.parDict = [] → eng.simulateOk = true →
        s0.prevFinalTime ≠ 0 →
      (simu eng s0 d mode).done = true
      ∧ EngineCall.simulateFromTo s0.prevFinalTime (s0.prevFinalTime + d)
          ∈ (simu eng s0 d mode).calls
      ∧ (∀ kv ∈ s0.parDict,
          EngineCall.set (s0.parLocation kv.1) kv.2 ∈ (simu eng s0 d mode).calls)
      ∧ ((∀ kv ∈ s0.stateDict, (stateToStart kv.1).isSome = true) →
          ∀ kv ∈ s0.stateDict, ∃ loc, stateToStart kv.1 = some loc
            ∧ EngineCall.set loc kv.2 ∈ (simu eng s0 d mode).calls)) := by
  constructor
  · intro hm hmiss hok
    rw [simu_not_missing eng s0 d mode hmiss,
      simuRun_initial eng _ _ mode hm hok]
    refine ⟨rfl, ?_, rfl, ?_⟩
    · show EngineCall.simulateFinal d ∈ _ ++ _ ++ [EngineCall.simulateFinal d]
      exact List.mem_append_right _ (List.mem_singleton.mpr rfl)
    · intro kv hkv
      show EngineCall.set (s0.parLocation kv.1) kv.2 ∈ _ ++ _ ++ _
      refine List.mem_append_left _ (List.mem_append_right _ ?_)
      exact List.mem_map.mpr ⟨kv, hkv, rfl⟩
  · intro hm hmiss hok hp
    rw [simu_not_missing eng s0 d mode hmiss,
      simuRun_cont eng { s0 with simulationTime := d, modelLoaded := true } _ mode
        hm (not_initial_of_cont mode hm) hp hok]
    refine ⟨rfl, ?_, ?_, ?_⟩
    · show EngineCall.simulateFromTo s0.prevFinalTime (s0.prevFinalTime + d)
        ∈ _ ++ _ ++ _ ++ [EngineCall.simulateFromTo s0.prevFinalTime (s0.prevFinalTime + d)]
      exact List.mem_append_right _ (List.mem_singleton.mpr rfl)
    · intro kv hkv
      show EngineCall.set (s0.parLocation kv.1) kv.2 ∈ _ ++ _ ++ _ ++ _
      refine List.mem_append_left _ (List.mem_append_left _ (List.mem_append_right _ ?_))
      exact List.mem_map.mpr ⟨kv, hkv, rfl⟩
    · intro htr kv hkv
      obtain ⟨loc, h1, h2⟩ := pushStates_mem s0.stateDict htr kv hkv
      refine ⟨loc, h1, ?_⟩
      show EngineCall.set loc kv.2 ∈ _ ++ _ ++ (pushStates s0.stateDict).1 ++ _
      exact List.mem_append_left _ (List.mem_append_right _ h2)

/-- Claim C6 (amended), instantiated: scenario-A/B style fixtures — an
`Initial` run over `[0, 10]` and a `Continued` run over `[100, 150]`. -/
theorem run_intervals_and_pushes_app :
    (simu engOK sessA 10 "Initial").done = true
    ∧ EngineCall.simulateFinal 10 ∈ (simu engOK sessA 10 "Initial").calls
    ∧ (simu engOK sessPrev 50 "Continued").done = true
    ∧ EngineCall.simulateFromTo 100 (100 + 50)
        ∈ (simu engOK sessPrev 50 "Continued").calls := by
  have hA := (run_intervals_and_pushes engOK sessA 10 "Initial").1
    (by decide) (by decide) (by decide)
  have hB := (run_intervals_and_pushes engOK sessPrev 50 "Continued").2
    (by decide) (by decide) (by decide) (by decide)
  exact ⟨hA.1, hA.2.1, hB.1, hB.2.1⟩

/-- Claim C3 counterexample: a captured state name that matches no
translation pattern is not fatal to the run — the loop prints its warning
and breaks, but the engine is still invoked and the run is reported done. -/
theorem untranslatable_state_run_proceeds_cex :
    stateToStart "y[1234]" = none
    ∧ ("y[1234]", Val.real 7) ∈ sessBad.stateDict
    ∧ (simu engOK sessBad 50 "Continued").done = true
    ∧ (simu engOK sessBad 50 "Continued").calls.any isSimulateCall = true := by
  decide

/-- Claim C3 (amended): when a captured state name matches none of the
translation patterns, the translation loop stops there — the states before
it are pushed, the unmatched one and all later ones are not, and the
oversize warning is reported — but the run does not fail: the engine is
still invoked over the continuation interval and the run completes. -/
theorem untranslatable_state_stops_push_loop (eng : Engine) (s0 : Session)
    (d : ℚ) (mode : String) (good : List (String × Val)) (badKey : String)
    (bv : Val) (rest : List (String × Val))
    (hm : mode ∈ contModes) (hp : s0.prevFinalTime ≠ 0)
    (hmiss : missingReports s0.parDict = []) (hok : eng.simulateOk = true)
    (hsd : s0.stateDict = good ++ (badKey, bv) :: rest)
    (hg : ∀ kv ∈ good, (transKey kv.1.data).isSome = true)
    (hbad : transKey badKey.data = none) :
    (simu eng s0 d mode).done = true
    ∧ (simu eng s0 d mode).reports = ["The state vecotr has more than 1000 states"]
    ∧ (simu eng s0 d mode).calls
        = (if s0.modelLoaded then [EngineCall.reset]
           else [EngineCall.load, EngineCall.reset])
          ++ pushPars s0.parLocation s0.parDict ++ (pushStates good).1
          ++ [EngineCall.simulateFromTo s0.prevFinalTime (s0.prevFinalTime + d)] := by
  rw [simu_not_missing eng s0 d mode hmiss,
    simuRun_cont eng { s0 with simulationTime := d, modelLoaded := true } _ mode
      hm (not_initial_of_cont mode hm) hp hok]
  have hps : pushStates ({ s0 with simulationTime := d, modelLoaded := true }
      : Session).stateDict = ((pushStates good).1,
        ["The state vecotr has more than 1000 states"]) := by
    show pushStates s0.stateDict = _
    rw [hsd]
    exact pushStates_stops badKey bv rest hbad good hg
  rw [hps]
  exact ⟨rfl, rfl, rfl⟩

/-- Claim C3 (amended), instantiated on `sessBad`: only the state before
the four-digit-indexed name is pushed, the warning is printed, and the
engine is still invoked over `[100, 150]`. -/
theorem untranslatable_state_stops_push_loop_app :
    (simu engOK sessBad 50 "cont").done = true
    ∧ (simu engOK sessBad 50 "cont").reports
        = ["The state vecotr has more than 1000 states"]
    ∧ (simu engOK sessBad 50 "cont").calls
        = [EngineCall.reset, EngineCall.set "Vcc" (Val.real 1),
           EngineCall.set "N_start" (Val.real 2),
           EngineCall.simulateFromTo 100 (100 + 50)] := by
  have h := untranslatable_state_stops_push_loop engOK sessBad 50 "cont"
    [("N", Val.real 2)] "y[1234]" (Val.real 7) [("DO", Val.real 3)]
    (by decide) (by decide) (by decide) (by decide) (by decide) (by decide) (by decide)
  exact ⟨h.1, h.2.1, h.2.2⟩
